import Mathlib

/-!
Shallow embedding of `semisup/backend.py` (utility functions for
association-based semi-supervised training): the association engine
(`match_ab`, `p_ab`, `p_ba`, `p_aba`), the walker / visit / logit loss
construction with its append-only accumulators, the walk statistics and
moving-average registration, the batched evaluation helper and the
per-class sampler.

float32 tensors are idealised as real-valued functions `ℕ → ℕ → ℝ` with
explicit dimension arguments, matching the specification's "within
floating tolerance" reading of the numerics.
-/

namespace Semisup

open Finset

/-- Embedding of `tf.matmul(a, b, transpose_b=True)` on `a : N×E`, `b : M×E`:
`match_ab[i,j] = Σ_k a[i,k]·b[j,k]` (backend.py lines 183 and 230). -/
noncomputable def matmulT (E : ℕ) (a b : ℕ → ℕ → ℝ) : ℕ → ℕ → ℝ :=
  fun i j => ∑ k ∈ range E, a i k * b j k

/-- Embedding of `tf.nn.softmax` over the last axis of an `n×m` matrix:
`softmax(A)[i,j] = exp(A[i,j]) / Σ_k exp(A[i,k])` (the max-subtraction
performed by the library for numerical stability is the identity over ℝ). -/
noncomputable def softmaxRows (m : ℕ) (A : ℕ → ℕ → ℝ) : ℕ → ℕ → ℝ :=
  fun i j => Real.exp (A i j) / ∑ k ∈ range m, Real.exp (A i k)

/-- Embedding of `tf.transpose`. -/
def transposeFn (A : ℕ → ℕ → ℝ) : ℕ → ℕ → ℝ :=
  fun i j => A j i

/-- Embedding of `tf.matmul(A, B)` with inner dimension `K`. -/
noncomputable def matmulN (K : ℕ) (A B : ℕ → ℕ → ℝ) : ℕ → ℕ → ℝ :=
  fun i j => ∑ k ∈ range K, A i k * B k j

/-- The association engine shared by both semisup losses
(backend.py lines 183–186 and 230–233):
`match_ab = a·bᵗ`, `p_ab = softmax(match_ab)`,
`p_ba = softmax(match_abᵗ)`, `p_aba = p_ab·p_ba`. -/
noncomputable def associate (N M E : ℕ) (a b : ℕ → ℕ → ℝ) :
    (ℕ → ℕ → ℝ) × (ℕ → ℕ → ℝ) × (ℕ → ℕ → ℝ) :=
  let match_ab := matmulT E a b
  let p_ab := softmaxRows M match_ab
  let p_ba := softmaxRows N (transposeFn match_ab)
  let p_aba := matmulN M p_ab p_ba
  (p_ab, p_ba, p_aba)

/-- The association matrices exactly as built by `add_semisup_loss`
(backend.py lines 230–233). -/
noncomputable def addSemisupAssoc (N M E : ℕ) (a b : ℕ → ℕ → ℝ) :
    (ℕ → ℕ → ℝ) × (ℕ → ℕ → ℝ) × (ℕ → ℕ → ℝ) :=
  let match_ab := matmulT E a b
  let p_ab := softmaxRows M match_ab
  let p_ba := softmaxRows N (transposeFn match_ab)
  let p_aba := matmulN M p_ab p_ba
  (p_ab, p_ba, p_aba)

/-- The association matrices exactly as built by `add_tree_semisup_loss`
(backend.py lines 183–186). -/
noncomputable def addTreeSemisupAssoc (N M E : ℕ) (a b : ℕ → ℕ → ℝ) :
    (ℕ → ℕ → ℝ) × (ℕ → ℕ → ℝ) × (ℕ → ℕ → ℝ) :=
  let match_ab := matmulT E a b
  let p_ab := softmaxRows M match_ab
  let p_ba := softmaxRows N (transposeFn match_ab)
  let p_aba := matmulN M p_ab p_ba
  (p_ab, p_ba, p_aba)

/-- A concrete 1×1 zero matrix used to instantiate theorems. -/
noncomputable def zeroMat : ℕ → ℕ → ℝ :=
  fun _ _ => 0

/-- Embedding of `tf.cast(tf.equal(tf.reshape(labels, [-1, 1]), labels), tf.float32)`
(backend.py lines 195–196 and 225–226): `1` where the two labels agree,
`0` elsewhere. -/
noncomputable def equalityMatrix (labels : ℕ → ℤ) : ℕ → ℕ → ℝ :=
  fun i j => if labels i = labels j then 1 else 0

/-- Embedding of `equality_matrix / tf.reduce_sum(equality_matrix, [1], keep_dims=True)`
(backend.py lines 197–198 and 227–228): each row of the equality matrix
divided by its row sum, over an `N`-row batch. -/
noncomputable def pTarget (N : ℕ) (labels : ℕ → ℤ) : ℕ → ℕ → ℝ :=
  fun i j => equalityMatrix labels i j / ∑ k ∈ range N, equalityMatrix labels i k

/-- The per-level label column used by `add_tree_semisup_loss`
(backend.py lines 192–193): `labels_d[i] = labels[i, K + d]` where
`K = treeStructure.num_nodes` is the level index offset. -/
def treeLevelLabels (labelsM : ℕ → ℕ → ℤ) (K d : ℕ) : ℕ → ℤ :=
  fun i => labelsM i (K + d)

/-- Embedding of `per_row_accuracy = 1.0 - tf.reduce_sum(equality_matrix * p_aba, 1)**0.5`
(backend.py line 360), over an `N`-row batch. -/
noncomputable def perRowAccuracy (N : ℕ) (eqM pAba : ℕ → ℕ → ℝ) : ℕ → ℝ :=
  fun i => 1 - Real.sqrt (∑ j ∈ range N, eqM i j * pAba i j)

/-- Embedding of `estimate_error = tf.reduce_mean(1.0 - per_row_accuracy)`
(backend.py lines 361–362). -/
noncomputable def estimateError (N : ℕ) (eqM pAba : ℕ → ℕ → ℝ) : ℝ :=
  (∑ i ∈ range N, (1 - perRowAccuracy N eqM pAba i)) / N

/-- Follows the spec's words, for comparison with `estimateError`:
"the outer `1 - mean(1 - per_row_accuracy)` in the aggregate"
(spec §4.6 and claim C2). -/
noncomputable def specEstimateError (N : ℕ) (eqM pAba : ℕ → ℕ → ℝ) : ℝ :=
  1 - (∑ i ∈ range N, (1 - perRowAccuracy N eqM pAba i)) / N

/-- A concrete 1×1 all-ones matrix used to instantiate theorems. -/
noncomputable def oneMat : ℕ → ℕ → ℝ :=
  fun _ _ => 1

/-- A node of the external tree structure: only its `depth` is consulted
by backend.py. -/
structure TreeNode where
  depth : ℕ

/-- The external `treeStructure` collaborator (spec §3, §6): node count,
tree depth, the ordered node list, per-node offsets and sizes into the
flattened logit vector, and per-level offsets and sizes. -/
structure TreeStructure where
  num_nodes : ℕ
  depth : ℕ
  nodes : List TreeNode
  offsets : List ℕ
  node_sizes : List ℕ
  level_offsets : List ℕ
  level_sizes : List ℕ

/-- Embedding of a 2-D `tf.slice(t, [b0, b1], [s0, s1])`: the sizes are
recorded by the consuming loss term, the content is the shifted window. -/
def tfSlice2 {α : Type} (t : ℕ → ℕ → α) (b0 b1 : ℕ) : ℕ → ℕ → α :=
  fun i j => t (b0 + i) (b1 + j)

/-- A graph node built by `tf.losses.softmax_cross_entropy(target, logits,
weights, scope)`: dimensions, the dense target, the logits and the
scalar weight. -/
structure SoftmaxCETerm where
  rows : ℕ
  cols : ℕ
  target : ℕ → ℕ → ℝ
  logits : ℕ → ℕ → ℝ
  weight : ℝ
  scope : String

/-- The `weights` argument of `tf.losses.sparse_softmax_cross_entropy`:
either a scalar or a per-sample weight column. -/
inductive WeightSpec where
  | scalar (w : ℝ)
  | perSample (w : ℕ → ℝ)

/-- A graph node built by `tf.losses.sparse_softmax_cross_entropy(labels,
logits, scope, weights)`: dimensions, the sparse label column, the logits
and the weights. -/
structure SparseCETerm where
  rows : ℕ
  cols : ℕ
  labels : ℕ → ℤ
  logits : ℕ → ℕ → ℝ
  weights : WeightSpec
  scope : String

/-- The mutable construction state of a `SemisupModel`: the three
append-only loss accumulators (backend.py lines 140–142), the `loss_aba`
attribute set by `add_semisup_loss` (line 237), the set of tensors
registered with the exponential-moving-average tracker (`self.ema`), and a
counter handing out graph-node identities for freshly created tensors. -/
structure ModelState where
  walker_losses : List SoftmaxCETerm
  visit_losses : List SoftmaxCETerm
  logit_losses : List SparseCETerm
  loss_aba : Option SoftmaxCETerm
  ema : List ℕ
  nextId : ℕ

/-- The state right after `SemisupModel.__init__` (backend.py
lines 140–142): all three accumulators empty, nothing registered. -/
def initialState : ModelState :=
  { walker_losses := []
    visit_losses := []
    logit_losses := []
    loss_aba := none
    ema := []
    nextId := 0 }

/-- Modelled from the spec: the exponential-moving-average tracker
(`tf.train.ExponentialMovingAverage`) is an external collaborator not under
src/; per spec §4.6, `add_average` "registers `value` with the shared
exponential-moving-average accumulator ... if not already registered", and
a repeated registration of the same value is rejected or detected, so
applying the tracker to an already-registered tensor leaves the tracker
unchanged. Tensors are tracked by graph-node identity. -/
def emaApply (reg : List ℕ) (v : ℕ) : List ℕ :=
  if v ∈ reg then reg else reg ++ [v]

/-- Embedding of `add_average` (backend.py lines 368–373): registers the
tensor with `self.ema`. -/
def addAverage (st : ModelState) (v : ℕ) : ModelState :=
  { st with ema := emaApply st.ema v }

/-- Embedding of `create_walk_statistics` (backend.py lines 348–366): the
numeric content (`per_row_accuracy`, `estimate_error`) is
`Semisup.estimateError`; on the construction state it registers the fresh
`estimate_error` tensor and then the given `p_aba` tensor with the
moving-average tracker. -/
noncomputable def createWalkStatistics (N : ℕ) (pAba eqM : ℕ → ℕ → ℝ)
    (pAbaId : ℕ) (st : ModelState) : ModelState :=
  let _estimate_error := estimateError N eqM pAba
  let esterrId := st.nextId
  let st1 : ModelState := { st with nextId := st.nextId + 1 }
  let st2 := addAverage st1 esterrId
  addAverage st2 pAbaId

/-- Embedding of `add_visit_loss` (backend.py lines 246–265):
`visit_probability` is the column mean of `p`, the loss is the softmax
cross-entropy between the uniform row `1/M` and
`log(1e-8 + visit_probability)`, and it is appended to `visit_losses`. -/
noncomputable def addVisitLoss (N M : ℕ) (p : ℕ → ℕ → ℝ) (weight : ℝ)
    (st : ModelState) : ModelState :=
  let visit_probability : ℕ → ℕ → ℝ := fun _ j => (∑ i ∈ range N, p i j) / N
  { st with visit_losses := st.visit_losses ++
      [{ rows := 1
         cols := M
         target := fun _ _ => 1 / (M : ℝ)
         logits := fun i j => Real.log (1e-8 + visit_probability i j)
         weight := weight
         scope := "loss_visit" }] }

/-- Embedding of `add_semisup_loss` (backend.py lines 212–244): builds
`p_target` from the labels, the association matrices, the walk statistics
on the fresh `p_aba`, stores the walker loss in the `loss_aba` attribute
and adds the visit loss. -/
noncomputable def addSemisupLoss (N M E : ℕ) (a b : ℕ → ℕ → ℝ)
    (labels : ℕ → ℤ) (walker_weight visit_weight : ℝ)
    (st : ModelState) : ModelState :=
  let eqM := equalityMatrix labels
  let p_target := pTarget N labels
  let p_ab := (addSemisupAssoc N M E a b).1
  let p_aba := (addSemisupAssoc N M E a b).2.2
  let pAbaId := st.nextId
  let st1 : ModelState := { st with nextId := st.nextId + 1 }
  let st2 := createWalkStatistics N p_aba eqM pAbaId st1
  let walkerTerm : SoftmaxCETerm :=
      { rows := N
        cols := N
        target := p_target
        logits := fun i j => Real.log (1e-8 + p_aba i j)
        weight := walker_weight
        scope := "loss_aba" }
  let st3 : ModelState := { st2 with loss_aba := some walkerTerm }
  addVisitLoss N M p_ab visit_weight st3

/-- One depth level `d` of the loop inside `add_tree_semisup_loss`
(backend.py lines 191–210): slice the per-level label column, build the
equality matrix and `p_target`, record walk statistics on the (shared)
`p_aba`, and append the level's walker loss. -/
noncomputable def treeSemisupStep (N K : ℕ) (labelsM : ℕ → ℕ → ℤ)
    (pAba : ℕ → ℕ → ℝ) (pAbaId : ℕ) (walker_weight : ℝ)
    (st : ModelState) (d : ℕ) : ModelState :=
  let labels_d := treeLevelLabels labelsM K d
  let eqM := equalityMatrix labels_d
  let p_target := pTarget N labels_d
  let st1 := createWalkStatistics N pAba eqM pAbaId st
  { st1 with walker_losses := st1.walker_losses ++
      [{ rows := N
         cols := N
         target := p_target
         logits := fun i j => Real.log (1e-8 + pAba i j)
         weight := walker_weight
         scope := "loss_aba" ++ toString d }] }

/-- Embedding of `add_tree_semisup_loss` (backend.py lines 168–210):
association matrices once, the visit loss once, then one walker loss per
depth level `d < min(maxDepth, treeStructure.depth)`, every level passing
the same `p_aba` tensor to `create_walk_statistics`. -/
noncomputable def addTreeSemisupLoss (N M E : ℕ) (ts : TreeStructure)
    (maxDepth : ℕ) (a b : ℕ → ℕ → ℝ) (labelsM : ℕ → ℕ → ℤ)
    (walker_weight visit_weight : ℝ) (st : ModelState) : ModelState :=
  let K := ts.num_nodes
  let p_ab := (addTreeSemisupAssoc N M E a b).1
  let p_aba := (addTreeSemisupAssoc N M E a b).2.2
  let pAbaId := st.nextId
  let st1 : ModelState := { st with nextId := st.nextId + 1 }
  let st2 := addVisitLoss N M p_ab visit_weight st1
  (List.range (min maxDepth ts.depth)).foldl
    (treeSemisupStep N K labelsM p_aba pAbaId walker_weight) st2

/-- Embedding of `add_logit_loss` (backend.py lines 267–276): it builds the
sparse cross-entropy graph node and a summary scalar, but touches no field
of the model — in particular it does not append to `logit_losses`. -/
noncomputable def addLogitLoss (N numLabels : ℕ) (logits : ℕ → ℕ → ℝ)
    (labels : ℕ → ℤ) (weight : ℝ) (st : ModelState) : ModelState :=
  let _logit_loss : SparseCETerm :=
    { rows := N
      cols := numLabels
      labels := labels
      logits := logits
      weights := WeightSpec.scalar weight
      scope := "loss_logit" }
  st

/-- One node of the loop inside `add_tree_logit_loss` (backend.py
lines 293–314), threading the explicit `node_index` counter: a node whose
depth reaches `maxDepth` is skipped by `continue`, which also skips the
`node_index = node_index + 1` increment at the end of the loop body. -/
noncomputable def treeLogitStep (numSamples nodeUsagesOffset : ℕ)
    (ts : TreeStructure) (maxDepth : ℕ) (logits : ℕ → ℕ → ℝ)
    (labels : ℕ → ℕ → ℤ) (weight : ℝ)
    (acc : ModelState × ℕ) (node : TreeNode) : ModelState × ℕ :=
  if maxDepth ≤ node.depth then acc
  else
    let st := acc.1
    let node_index := acc.2
    let logits_subset := tfSlice2 logits 0 (ts.offsets.getD node_index 0)
    let labels_subset := fun i => labels i node_index
    let layer_weight : ℝ := if node.depth = 0 then 1 else 0.4
    let weights : ℕ → ℝ := fun i =>
      ((labels i (nodeUsagesOffset + node_index) : ℤ) : ℝ) *
        (weight * layer_weight)
    ({ st with logit_losses := st.logit_losses ++
        [{ rows := numSamples
           cols := ts.node_sizes.getD node_index 0
           labels := labels_subset
           logits := logits_subset
           weights := WeightSpec.perSample weights
           scope := "loss_logit_node_" ++ toString node_index }] },
     node_index + 1)

/-- Embedding of `add_tree_logit_loss` (backend.py lines 278–314):
`node_usages_offset = labels.shape[1] - num_nodes`, then the node loop with
`node_index` starting at 0. -/
noncomputable def addTreeLogitLoss (numSamples labelWidth : ℕ)
    (ts : TreeStructure) (maxDepth : ℕ) (logits : ℕ → ℕ → ℝ)
    (labels : ℕ → ℕ → ℤ) (weight : ℝ) (st : ModelState) : ModelState :=
  let node_usages_offset := labelWidth - ts.num_nodes
  (ts.nodes.foldl
    (treeLogitStep numSamples node_usages_offset ts maxDepth logits labels
      weight) (st, 0)).1

/-- Embedding of `add_tree_multitask_logit_loss` (backend.py
lines 316–346): for `d` in `range(2)`, slice the logits at
`level_offsets[d]` with size `level_sizes[d+1]`, pair with the label column
at `level_index_offset + d = num_nodes + d`, use the uniform
`layer_weight = 1.0` as the loss weights, and append to `logit_losses`. -/
noncomputable def addTreeMultitaskLogitLoss (numSamples : ℕ)
    (ts : TreeStructure) (logits : ℕ → ℕ → ℝ) (labels : ℕ → ℕ → ℤ)
    (weight : ℝ) (st : ModelState) : ModelState :=
  let level_index_offset := ts.num_nodes
  (List.range 2).foldl (fun st d =>
    let logits_subset := tfSlice2 logits 0 (ts.level_offsets.getD d 0)
    let labels_subset := fun i => labels i (level_index_offset + d)
    let layer_weight : ℝ := 1
    { st with logit_losses := st.logit_losses ++
        [{ rows := numSamples
           cols := ts.level_sizes.getD (d + 1) 0
           labels := labels_subset
           logits := logits_subset
           weights := WeightSpec.scalar layer_weight
           scope := "loss_logit_depth_" ++ toString d }] }) st

/-- The logit-loss graph node appended for depth level `d` by
`add_tree_multitask_logit_loss`. -/
noncomputable def treeMultitaskTerm (numSamples : ℕ) (ts : TreeStructure)
    (logits : ℕ → ℕ → ℝ) (labels : ℕ → ℕ → ℤ) (d : ℕ) : SparseCETerm :=
  { rows := numSamples
    cols := ts.level_sizes.getD (d + 1) 0
    labels := fun i => labels i (ts.num_nodes + d)
    logits := tfSlice2 logits 0 (ts.level_offsets.getD d 0)
    weights := WeightSpec.scalar 1
    scope := "loss_logit_depth_" ++ toString d }

/-- The walker-loss graph node appended by level `d` of
`add_tree_semisup_loss`. -/
noncomputable def treeWalkerTerm (N K : ℕ) (labelsM : ℕ → ℕ → ℤ)
    (pAba : ℕ → ℕ → ℝ) (walker_weight : ℝ) (d : ℕ) : SoftmaxCETerm :=
  { rows := N
    cols := N
    target := pTarget N (treeLevelLabels labelsM K d)
    logits := fun i j => Real.log (1e-8 + pAba i j)
    weight := walker_weight
    scope := "loss_aba" ++ toString d }

/-- A depth-first-ordered tree (root, first child, a grandchild, second
child — node depths `[0, 1, 2, 1]`), with per-node offsets `[0, 1, 3, 6]`
and sizes `[1, 2, 3, 2]`; a stable ordering permitted by the spec's
TreeStructure invariant. -/
def dfsTree : TreeStructure :=
  { num_nodes := 4
    depth := 3
    nodes := [⟨0⟩, ⟨1⟩, ⟨2⟩, ⟨1⟩]
    offsets := [0, 1, 3, 6]
    node_sizes := [1, 2, 3, 2]
    level_offsets := [0, 1]
    level_sizes := [1, 2, 5] }

/-- A small tree used to exhibit the level-size indexing of
`add_tree_multitask_logit_loss`: `level_offsets = [0, 5]`,
`level_sizes = [5, 7, 9]`. -/
def mtTree : TreeStructure :=
  { num_nodes := 3
    depth := 2
    nodes := []
    offsets := []
    node_sizes := []
    level_offsets := [0, 5]
    level_sizes := [5, 7, 9] }

/-- Follows the spec's words for `add_tree_multitask_logit_loss`, for
comparison with the embedding: the first two depth levels, each slicing
the logits "at that level's offset with that same level's width", i.e. the
slice at `level_offsets[d]` would have width `level_sizes[d]`. -/
noncomputable def specTreeMultitaskTerms (numSamples : ℕ)
    (ts : TreeStructure) (logits : ℕ → ℕ → ℝ) (labels : ℕ → ℕ → ℤ) :
    List SparseCETerm :=
  (List.range 2).map (fun d =>
    { rows := numSamples
      cols := ts.level_sizes.getD d 0
      labels := fun i => labels i (ts.num_nodes + d)
      logits := tfSlice2 logits 0 (ts.level_offsets.getD d 0)
      weights := WeightSpec.scalar 1
      scope := "loss_logit_depth_" ++ toString d })

/-- Modelled from the spec: the scope-based parameter reuse mechanism of
the underlying tensor library, which is not under src/ (spec §5:
"parameter-sharing correctness relies on scope-based reuse (second and
later invocations under the same scope bind to existing parameters rather
than creating new ones)"; spec §9: "dynamic dispatch based on a reuse
flag"): opening a scope with `reuse=True` binds to the existing parameter
set under the given name and is rejected when none exists yet; with
`reuse=False` it creates a fresh parameter set and is rejected when one
already exists. The state is the registry of created parameter sets. -/
def scopeGetOrCreate (reuse : Bool) (name : String) (reg : List String) :
    Except String (List String) :=
  if reuse then
    if name ∈ reg then Except.ok reg
    else Except.error ("no parameters to reuse under " ++ name)
  else
    if name ∈ reg then Except.error ("parameters already exist under " ++ name)
    else Except.ok (reg ++ [name])

/-- Embedding of `image_to_embedding` (backend.py lines 152–155):
`with tf.variable_scope('net', reuse=is_training)` around `model_func`,
whose parameter set lives under the scope. -/
def imageToEmbedding (is_training : Bool) (reg : List String) :
    Except String (List String) :=
  scopeGetOrCreate is_training "net/model_func" reg

/-- Embedding of `embedding_to_logit` (backend.py lines 157–166):
`with tf.variable_scope('net', reuse=is_training)` around one
fully-connected projection. -/
def embeddingToLogit (is_training : Bool) (reg : List String) :
    Except String (List String) :=
  scopeGetOrCreate is_training "net/fully_connected" reg

/-- The list `emb` of per-chunk endpoint results collected by the loop
`for i in range(0, len(images), batch_size)` with
`batch_size = self.test_batch_size = 100` (backend.py lines 396–398): one
entry `endpoint.eval(images[i:i + batch_size])` per chunk, zero entries
when `images` is empty. -/
def calcEmbeddingChunks {α β : Type} (endpoint : List α → List β) :
    List α → List (List β)
  | [] => []
  | x :: xs =>
    endpoint ((x :: xs).take 100) ::
      calcEmbeddingChunks endpoint ((x :: xs).drop 100)
  termination_by images => images.length
  decreasing_by
    simp
    omega

/-- Embedding of `np.concatenate` over the collected per-chunk results
(backend.py line 399): concatenation along the sample axis, except that
numpy raises `ValueError` when handed zero arrays to concatenate. -/
def npConcatenate {β : Type} : List (List β) → Option (List β)
  | [] => none
  | c :: cs => some ((c :: cs).flatten)

/-- Embedding of `calc_embedding` (backend.py lines 393–399): evaluate the
endpoint on each `test_batch_size = 100` chunk of `images`, then
`np.concatenate` the per-chunk results. -/
def calcEmbedding {α β : Type} (endpoint : List α → List β)
    (images : List α) : Option (List β) :=
  npConcatenate (calcEmbeddingChunks endpoint images)

/-- Embedding of `classify` (backend.py lines 410–412): `calc_embedding`
applied to the logit endpoint `self.test_logit`. -/
def classify {α β : Type} (test_logit : List α → List β)
    (images : List α) : Option (List β) :=
  calcEmbedding test_logit images

/-- Embedding of the numpy mask selection `a = images[labels == i]`
(backend.py line 83): the images whose paired label equals `i`. -/
def classList {α : Type} (images : List α) (labels : List ℤ) (i : ℤ) :
    List α :=
  ((images.zip labels).filter (fun p => decide (p.2 = i))).map
    (fun p => p.1)

/-- Modelled from the spec: the external sampler
`np.random.RandomState.choice(len(a), n_per_label, False)` (numpy, not
under src/) draws pairwise-distinct indices below its first argument and
fails when more samples than available (or a negative count) are
requested; the concrete generator is abstracted as any function
satisfying this contract. -/
def ChoiceSpec (choice : ℕ → ℤ → Option (List ℕ)) : Prop :=
  ∀ (n : ℕ) (k : ℤ),
    (0 ≤ k → k ≤ (n : ℤ) →
      ∃ idxs, choice n k = some idxs ∧ idxs.length = k.toNat ∧
        idxs.Nodup ∧ ∀ j ∈ idxs, j < n) ∧
    ((n : ℤ) < k → choice n k = none) ∧
    (k < 0 → choice n k = none)

/-- The loop of `sample_by_label` (backend.py lines 82–88) over a list of
class indices: for each class `i`, take `a = images[labels == i]`; with
`n_per_label == -1` append all of `a`, otherwise append
`a[rng.choice(len(a), n_per_label, False)]`; a failing draw aborts the
call. -/
def sampleByLabelGo {α : Type} [Inhabited α]
    (choice : ℕ → ℤ → Option (List ℕ)) (images : List α)
    (labels : List ℤ) (n_per_label : ℤ) :
    List ℕ → Option (List (List α))
  | [] => some []
  | i :: rest =>
    let a := classList images labels (i : ℤ)
    if n_per_label = -1 then
      (sampleByLabelGo choice images labels n_per_label rest).map
        (fun res => a :: res)
    else
      match choice a.length n_per_label with
      | none => none
      | some idxs =>
        (sampleByLabelGo choice images labels n_per_label rest).map
          (fun res => (idxs.map (fun j => a.getD j default)) :: res)

/-- Embedding of `sample_by_label` (backend.py lines 78–88): the loop over
`range(num_labels)`, with the RandomState draw abstracted by `choice`. -/
def sampleByLabel {α : Type} [Inhabited α]
    (choice : ℕ → ℤ → Option (List ℕ)) (images : List α)
    (labels : List ℤ) (n_per_label : ℤ) (num_labels : ℕ) :
    Option (List (List α)) :=
  sampleByLabelGo choice images labels n_per_label (List.range num_labels)

/-- A deterministic instance of the numpy draw contract: take the first
`k` indices when possible. -/
def naturalChoice : ℕ → ℤ → Option (List ℕ) :=
  fun n k =>
    if 0 ≤ k ∧ k ≤ (n : ℤ) then some (List.range k.toNat) else none

lemma softmaxRows_row_sum (m : ℕ) (hm : 0 < m) (A : ℕ → ℕ → ℝ) (i : ℕ) :
    ∑ j ∈ range m, softmaxRows m A i j = 1 := by
  unfold softmaxRows
  rw [← Finset.sum_div]
  exact div_self (ne_of_gt (Finset.sum_pos (fun k _ => Real.exp_pos _)
    (Finset.nonempty_range_iff.mpr hm.ne')))

/-- C1: the association computation (shared by `add_semisup_loss` and
`add_tree_semisup_loss`) forms `match_ab = a·bᵗ`, `p_ab` and `p_ba` as the
row softmaxes of `match_ab` and its transpose, and `p_aba = p_ab·p_ba`;
every row of `p_ab`, `p_ba` and `p_aba` sums to 1. -/
theorem associate_rows_sum_one (N M E : ℕ) (hN : 0 < N) (hM : 0 < M)
    (a b : ℕ → ℕ → ℝ) :
    (∀ i, ∑ j ∈ range M, (associate N M E a b).1 i j = 1) ∧
    (∀ i, ∑ j ∈ range N, (associate N M E a b).2.1 i j = 1) ∧
    (∀ i, ∑ j ∈ range N, (associate N M E a b).2.2 i j = 1) ∧
    addSemisupAssoc N M E a b = associate N M E a b ∧
    addTreeSemisupAssoc N M E a b = associate N M E a b := by
  refine ⟨?_, ?_, ?_, rfl, rfl⟩
  · intro i
    exact softmaxRows_row_sum M hM (matmulT E a b) i
  · intro i
    exact softmaxRows_row_sum N hN (transposeFn (matmulT E a b)) i
  · intro i
    show ∑ j ∈ range N, ∑ k ∈ range M,
        softmaxRows M (matmulT E a b) i k *
        softmaxRows N (transposeFn (matmulT E a b)) k j = 1
    rw [Finset.sum_comm]
    have h1 : ∀ k ∈ range M,
        ∑ j ∈ range N, softmaxRows M (matmulT E a b) i k *
          softmaxRows N (transposeFn (matmulT E a b)) k j
        = softmaxRows M (matmulT E a b) i k := by
      intro k _
      rw [← Finset.mul_sum,
        softmaxRows_row_sum N hN (transposeFn (matmulT E a b)) k, mul_one]
    rw [Finset.sum_congr rfl h1]
    exact softmaxRows_row_sum M hM (matmulT E a b) i

/-- Witness: the C1 theorem instantiated at `N = M = E = 1` and zero
embedding matrices. -/
theorem associate_rows_sum_one_witness :
    (0 : ℕ) < 1 ∧ ∑ j ∈ range 1, (associate 1 1 1 zeroMat zeroMat).1 0 j = 1 :=
  ⟨Nat.one_pos,
    (associate_rows_sum_one 1 1 1 Nat.one_pos Nat.one_pos zeroMat zeroMat).1 0⟩

lemma equalityMatrix_nonneg (labels : ℕ → ℤ) (i j : ℕ) :
    0 ≤ equalityMatrix labels i j := by
  unfold equalityMatrix
  split <;> norm_num

lemma equalityMatrix_row_sum_ge_one (N : ℕ) (labels : ℕ → ℤ) (i : ℕ)
    (hi : i < N) : 1 ≤ ∑ k ∈ range N, equalityMatrix labels i k := by
  have hdiag : equalityMatrix labels i i = 1 := by
    unfold equalityMatrix; simp
  calc (1 : ℝ) = equalityMatrix labels i i := hdiag.symm
    _ ≤ ∑ k ∈ range N, equalityMatrix labels i k :=
        Finset.single_le_sum (fun k _ => equalityMatrix_nonneg labels i k)
          (Finset.mem_range.mpr hi)

/-- C6: every row of the equality matrix sums to at least 1 (the diagonal
entry is 1 since `labels[i] == labels[i]`), so the normalisation producing
`p_target` never divides by zero; every row of `p_target` sums to 1 and
`p_target[i,i] > 0`; the per-level construction of `add_tree_semisup_loss`
is the same `p_target` applied to the sliced label column `labels[:, K+d]`,
so the facts cover both the flat and the per-level construction. -/
theorem pTarget_rows_safe (N : ℕ) (labels : ℕ → ℤ) (i : ℕ) (hi : i < N) :
    1 ≤ ∑ k ∈ range N, equalityMatrix labels i k ∧
    (∑ j ∈ range N, pTarget N labels i j = 1) ∧
    0 < pTarget N labels i i ∧
    (∀ labelsM K d, pTarget N (treeLevelLabels labelsM K d)
      = pTarget N (fun r => labelsM r (K + d))) := by
  have hsum := equalityMatrix_row_sum_ge_one N labels i hi
  have hpos : 0 < ∑ k ∈ range N, equalityMatrix labels i k :=
    lt_of_lt_of_le one_pos hsum
  refine ⟨hsum, ?_, ?_, fun labelsM K d => rfl⟩
  · unfold pTarget
    rw [← Finset.sum_div]
    exact div_self (ne_of_gt hpos)
  · unfold pTarget
    apply div_pos _ hpos
    unfold equalityMatrix
    simp

/-- Witness: the C6 theorem instantiated at `N = 1`, the constant zero
label vector and row `i = 0`. -/
theorem pTarget_rows_safe_witness :
    (0 : ℕ) < 1 ∧ ∑ j ∈ range 1, pTarget 1 (fun _ => 0) 0 j = 1 :=
  ⟨Nat.one_pos, (pTarget_rows_safe 1 (fun _ => 0) 0 Nat.one_pos).2.1⟩

/-- C2 counterexample: at `N = 1` with `equality_matrix = [[1]]` and
`p_aba = [[1]]` (all round-trip mass on a same-label sample), the code's
`estimate_error` is `1`, while the claim's aggregate
`1 − mean(1 − per_row_accuracy)` (equivalently `mean(per_row_accuracy)`)
is `0`; in particular `estimate_error` is not near zero here. -/
theorem estimateError_counterexample :
    estimateError 1 oneMat oneMat = 1 ∧
    specEstimateError 1 oneMat oneMat = 0 ∧
    estimateError 1 oneMat oneMat ≠ specEstimateError 1 oneMat oneMat := by
  have h : estimateError 1 oneMat oneMat = 1 := by
    unfold estimateError perRowAccuracy oneMat
    simp
  have h2 : specEstimateError 1 oneMat oneMat = 0 := by
    unfold specEstimateError perRowAccuracy oneMat
    simp
  exact ⟨h, h2, by rw [h, h2]; norm_num⟩

/-- C2 amended: `estimate_error` equals
`mean_i(1 − per_row_accuracy[i]) = mean_i sqrt(Σ_j equality_matrix[i,j]·p_aba[i,j])`
(no outer `1 −`), where `per_row_accuracy[i]` is the per-sample estimated
error `1 − sqrt(Σ_j equality_matrix[i,j]·p_aba[i,j])`; when all of each
row's round-trip mass lies on same-label samples, `estimate_error` is 1. -/
theorem estimateError_amended (N : ℕ) (hN : 0 < N) (eqM pAba : ℕ → ℕ → ℝ) :
    estimateError N eqM pAba
      = (∑ i ∈ range N, Real.sqrt (∑ j ∈ range N, eqM i j * pAba i j)) / N ∧
    ((∀ i ∈ range N, ∑ j ∈ range N, eqM i j * pAba i j = 1) →
      estimateError N eqM pAba = 1) := by
  have hmean : estimateError N eqM pAba
      = (∑ i ∈ range N, Real.sqrt (∑ j ∈ range N, eqM i j * pAba i j)) / N := by
    unfold estimateError perRowAccuracy
    ring_nf
  refine ⟨hmean, fun hmass => ?_⟩
  rw [hmean]
  have hterm : ∀ i ∈ range N,
      Real.sqrt (∑ j ∈ range N, eqM i j * pAba i j) = 1 := by
    intro i hi
    rw [hmass i hi, Real.sqrt_one]
  rw [Finset.sum_congr rfl hterm, Finset.sum_const, card_range, nsmul_eq_mul,
    mul_one]
  exact div_self (Nat.cast_ne_zero.mpr hN.ne')

/-- Witness: the C2 amended theorem instantiated at `N = 1` with
all-ones matrices, where each row's correct round-trip mass is 1. -/
theorem estimateError_amended_witness :
    (0 : ℕ) < 1 ∧ estimateError 1 oneMat oneMat = 1 :=
  ⟨Nat.one_pos,
    (estimateError_amended 1 Nat.one_pos oneMat oneMat).2 (by
      intro i hi
      unfold oneMat
      simp)⟩

lemma treeSemisupStep_walker (N K : ℕ) (labelsM : ℕ → ℕ → ℤ)
    (pAba : ℕ → ℕ → ℝ) (pAbaId : ℕ) (ww : ℝ) (st : ModelState) (d : ℕ) :
    (treeSemisupStep N K labelsM pAba pAbaId ww st d).walker_losses
      = st.walker_losses ++ [treeWalkerTerm N K labelsM pAba ww d] :=
  rfl

lemma treeSemisupStep_others (N K : ℕ) (labelsM : ℕ → ℕ → ℤ)
    (pAba : ℕ → ℕ → ℝ) (pAbaId : ℕ) (ww : ℝ) (st : ModelState) (d : ℕ) :
    (treeSemisupStep N K labelsM pAba pAbaId ww st d).visit_losses
        = st.visit_losses ∧
    (treeSemisupStep N K labelsM pAba pAbaId ww st d).logit_losses
        = st.logit_losses ∧
    (treeSemisupStep N K labelsM pAba pAbaId ww st d).loss_aba = st.loss_aba :=
  ⟨rfl, rfl, rfl⟩

lemma treeSemisupFold_acc (N K : ℕ) (labelsM : ℕ → ℕ → ℤ)
    (pAba : ℕ → ℕ → ℝ) (pAbaId : ℕ) (ww : ℝ) (l : List ℕ) (st : ModelState) :
    (l.foldl (treeSemisupStep N K labelsM pAba pAbaId ww) st).walker_losses
      = st.walker_losses ++ l.map (treeWalkerTerm N K labelsM pAba ww) ∧
    (l.foldl (treeSemisupStep N K labelsM pAba pAbaId ww) st).visit_losses
      = st.visit_losses ∧
    (l.foldl (treeSemisupStep N K labelsM pAba pAbaId ww) st).logit_losses
      = st.logit_losses ∧
    (l.foldl (treeSemisupStep N K labelsM pAba pAbaId ww) st).loss_aba
      = st.loss_aba := by
  induction l generalizing st with
  | nil => simp
  | cons d rest ih =>
    obtain ⟨ih1, ih2, ih3, ih4⟩ :=
      ih (treeSemisupStep N K labelsM pAba pAbaId ww st d)
    obtain ⟨ho1, ho2, ho3⟩ :=
      treeSemisupStep_others N K labelsM pAba pAbaId ww st d
    refine ⟨?_, ?_, ?_, ?_⟩
    · rw [List.foldl_cons, ih1,
        treeSemisupStep_walker N K labelsM pAba pAbaId ww st d,
        List.append_assoc]
      simp
    · rw [List.foldl_cons, ih2, ho1]
    · rw [List.foldl_cons, ih3, ho2]
    · rw [List.foldl_cons, ih4, ho3]

lemma treeLogitFold_acc (numSamples nuo : ℕ) (ts : TreeStructure)
    (maxDepth : ℕ) (logits : ℕ → ℕ → ℝ) (labels : ℕ → ℕ → ℤ) (w : ℝ)
    (nodes : List TreeNode) (st : ModelState) (idx : ℕ) :
    ∃ add : List SparseCETerm,
      (nodes.foldl
        (treeLogitStep numSamples nuo ts maxDepth logits labels w)
        (st, idx)).1.logit_losses = st.logit_losses ++ add ∧
      add.length
        = (nodes.filter (fun nd => decide (nd.depth < maxDepth))).length ∧
      (nodes.foldl
        (treeLogitStep numSamples nuo ts maxDepth logits labels w)
        (st, idx)).1.walker_losses = st.walker_losses ∧
      (nodes.foldl
        (treeLogitStep numSamples nuo ts maxDepth logits labels w)
        (st, idx)).1.visit_losses = st.visit_losses := by
  induction nodes generalizing st idx with
  | nil => exact ⟨[], by simp, by simp, rfl, rfl⟩
  | cons node rest ih =>
    by_cases h : maxDepth ≤ node.depth
    · have hstep :
          treeLogitStep numSamples nuo ts maxDepth logits labels w
            (st, idx) node = (st, idx) := by
        unfold treeLogitStep
        rw [if_pos h]
      obtain ⟨add, h1, h2, h3, h4⟩ := ih st idx
      refine ⟨add, ?_, ?_, ?_, ?_⟩
      · rw [List.foldl_cons, hstep, h1]
      · rw [h2, List.filter_cons]
        have : decide (node.depth < maxDepth) = false := by
          simp [Nat.not_lt.mpr h]
        rw [this]
        simp
      · rw [List.foldl_cons, hstep, h3]
      · rw [List.foldl_cons, hstep, h4]
    · have hlt : node.depth < maxDepth := Nat.not_le.mp h
      set t : SparseCETerm :=
        { rows := numSamples
          cols := ts.node_sizes.getD idx 0
          labels := fun i => labels i idx
          logits := tfSlice2 logits 0 (ts.offsets.getD idx 0)
          weights := WeightSpec.perSample (fun i =>
            ((labels i (nuo + idx) : ℤ) : ℝ) *
              (w * (if node.depth = 0 then 1 else 0.4)))
          scope := "loss_logit_node_" ++ toString idx } with ht
      have hstep :
          treeLogitStep numSamples nuo ts maxDepth logits labels w
            (st, idx) node
          = ({ st with logit_losses := st.logit_losses ++ [t] }, idx + 1) := by
        unfold treeLogitStep
        rw [if_neg h]
      obtain ⟨add, h1, h2, h3, h4⟩ :=
        ih { st with logit_losses := st.logit_losses ++ [t] } (idx + 1)
      refine ⟨t :: add, ?_, ?_, ?_, ?_⟩
      · rw [List.foldl_cons, hstep, h1]
        simp
      · rw [List.filter_cons]
        have hd : decide (node.depth < maxDepth) = true := by
          simp [hlt]
        rw [hd]
        simp [h2]
      · rw [List.foldl_cons, hstep, h3]
      · rw [List.foldl_cons, hstep, h4]

/-- C3 counterexample: at a concrete one-sample input and the freshly
initialised model, `add_semisup_loss` appends no entry to `walker_losses`
(the walker loss only lands in the `loss_aba` attribute) and
`add_logit_loss` appends no entry to `logit_losses`, contradicting the
claimed one-entry-per-call behaviour of these two routines. -/
theorem accumulators_counterexample :
    (addSemisupLoss 1 1 1 zeroMat zeroMat (fun _ => 0) 1 1
        initialState).walker_losses.length
      ≠ initialState.walker_losses.length + 1 ∧
    (addLogitLoss 1 1 zeroMat (fun _ => 0) 1
        initialState).logit_losses.length
      ≠ initialState.logit_losses.length + 1 := by
  have h1 : (addSemisupLoss 1 1 1 zeroMat zeroMat (fun _ => 0) 1 1
      initialState).walker_losses.length = 0 := rfl
  have h2 : (addLogitLoss 1 1 zeroMat (fun _ => 0) 1
      initialState).logit_losses.length = 0 := rfl
  have h3 : initialState.walker_losses.length = 0 := rfl
  have h4 : initialState.logit_losses.length = 0 := rfl
  rw [h1, h2, h3, h4]
  omega

/-- C3 amended: every loss-construction routine only ever appends to the
accumulators (nothing is removed or overwritten), with these counts:
`add_semisup_loss` appends exactly one visit entry, stores its walker loss
in the `loss_aba` attribute and appends nothing to `walker_losses`;
`add_logit_loss` appends nothing to any accumulator; `add_tree_semisup_loss`
appends one walker entry per depth level `d` in `[0, min(maxDepth, D))` and
exactly one visit entry; `add_tree_logit_loss` appends one logit entry per
processed node (depth below `maxDepth`); `add_tree_multitask_logit_loss`
appends exactly two logit entries. -/
theorem accumulators_append_only
    (N M E numSamples labelWidth numLabels maxDepth : ℕ)
    (ts : TreeStructure) (a b logits : ℕ → ℕ → ℝ) (labels : ℕ → ℤ)
    (labelsM : ℕ → ℕ → ℤ) (ww vw w : ℝ) (st : ModelState) :
    ((addSemisupLoss N M E a b labels ww vw st).walker_losses
        = st.walker_losses ∧
     (∃ t, (addSemisupLoss N M E a b labels ww vw st).visit_losses
        = st.visit_losses ++ [t]) ∧
     (addSemisupLoss N M E a b labels ww vw st).logit_losses
        = st.logit_losses ∧
     (addSemisupLoss N M E a b labels ww vw st).loss_aba.isSome = true) ∧
    (addLogitLoss numSamples numLabels logits labels w st = st) ∧
    ((addTreeSemisupLoss N M E ts maxDepth a b labelsM ww vw st).walker_losses
        = st.walker_losses ++
          (List.range (min maxDepth ts.depth)).map
            (treeWalkerTerm N ts.num_nodes labelsM
              (addTreeSemisupAssoc N M E a b).2.2 ww) ∧
     (∃ t, (addTreeSemisupLoss N M E ts maxDepth a b labelsM ww vw
        st).visit_losses = st.visit_losses ++ [t]) ∧
     (addTreeSemisupLoss N M E ts maxDepth a b labelsM ww vw
        st).logit_losses = st.logit_losses) ∧
    (∃ add : List SparseCETerm,
      (addTreeLogitLoss numSamples labelWidth ts maxDepth logits labelsM w
          st).logit_losses = st.logit_losses ++ add ∧
      add.length
        = (ts.nodes.filter (fun nd => decide (nd.depth < maxDepth))).length ∧
      (addTreeLogitLoss numSamples labelWidth ts maxDepth logits labelsM w
          st).walker_losses = st.walker_losses ∧
      (addTreeLogitLoss numSamples labelWidth ts maxDepth logits labelsM w
          st).visit_losses = st.visit_losses) ∧
    (∃ add : List SparseCETerm,
      (addTreeMultitaskLogitLoss numSamples ts logits labelsM w
          st).logit_losses = st.logit_losses ++ add ∧
      add.length = 2 ∧
      (addTreeMultitaskLogitLoss numSamples ts logits labelsM w
          st).walker_losses = st.walker_losses ∧
      (addTreeMultitaskLogitLoss numSamples ts logits labelsM w
          st).visit_losses = st.visit_losses) := by
  refine ⟨⟨rfl, ⟨_, rfl⟩, rfl, rfl⟩, rfl, ?_, ?_, ?_⟩
  · obtain ⟨h1, h2, h3, _⟩ := treeSemisupFold_acc N ts.num_nodes labelsM
      (addTreeSemisupAssoc N M E a b).2.2 st.nextId ww
      (List.range (min maxDepth ts.depth))
      (addVisitLoss N M (addTreeSemisupAssoc N M E a b).1 vw
        { st with nextId := st.nextId + 1 })
    exact ⟨h1, ⟨_, h2⟩, h3⟩
  · exact treeLogitFold_acc numSamples (labelWidth - ts.num_nodes) ts
      maxDepth logits labelsM w ts.nodes st 0
  · refine ⟨[treeMultitaskTerm numSamples ts logits labelsM 0,
      treeMultitaskTerm numSamples ts logits labelsM 1], ?_, rfl, rfl, rfl⟩
    show (addTreeMultitaskLogitLoss numSamples ts logits labelsM w
        st).logit_losses = st.logit_losses ++
          ([treeMultitaskTerm numSamples ts logits labelsM 0] ++
           [treeMultitaskTerm numSamples ts logits labelsM 1])
    rw [← List.append_assoc]
    rfl

/-- C4: evaluation of `add_tree_logit_loss` at the failing input — the
depth-first tree `dfsTree` with `maxDepth = 2`, one sample, label width 11
(so the usage-mask segment starts at column 7), `logits[i,j] = j` and
`labels[i,c] = c` as column markers. The third node in the list (depth 2)
is skipped by `continue`, which also skips the `node_index` increment, so
the fourth node (depth 1, a processed node) is paired with the label
column 2 and the logits segment at `offsets[2] = 3` — the data of node 2 —
instead of its own label column 3 and segment at `offsets[3] = 6`. -/
theorem treeLogit_stale_node_index :
    ((addTreeLogitLoss 1 11 dfsTree 2 (fun _ j => (j : ℝ))
        (fun _ c => (c : ℤ)) 1 initialState).logit_losses.map
      (fun t => (t.labels 0, t.scope)))
      = [((0 : ℤ), "loss_logit_node_0"), (1, "loss_logit_node_1"),
         (2, "loss_logit_node_2")] ∧
    ((addTreeLogitLoss 1 11 dfsTree 2 (fun _ j => (j : ℝ))
        (fun _ c => (c : ℤ)) 1 initialState).logit_losses.map
      (fun t => t.logits 0 0)) = [(0 : ℝ), 1, 3] ∧
    dfsTree.offsets.getD 3 0 = 6 ∧ ((2 : ℤ) ≠ 3) ∧ ((3 : ℝ) ≠ 6) := by
  have h : (addTreeLogitLoss 1 11 dfsTree 2 (fun _ j => (j : ℝ))
      (fun _ c => (c : ℤ)) 1 initialState).logit_losses.map
        (fun t => (t.labels 0, t.scope))
      = [((0 : ℤ), "loss_logit_node_0"), (1, "loss_logit_node_1"),
         (2, "loss_logit_node_2")] := rfl
  refine ⟨h, ?_, rfl, by decide, by norm_num⟩
  show [((0 + 0 : ℕ) : ℝ), ((1 + 0 : ℕ) : ℝ), ((3 + 0 : ℕ) : ℝ)]
      = [(0 : ℝ), 1, 3]
  norm_num

/-- C5 counterexample: on `mtTree` (level sizes `[5, 7, 9]`), the two
logit slices taken by `add_tree_multitask_logit_loss` have widths
`level_sizes[1] = 7` and `level_sizes[2] = 9`, not the same-level widths
`level_sizes[0] = 5` and `level_sizes[1] = 7` that the claim (and the
spec-literal construction `specTreeMultitaskTerms`) prescribes. -/
theorem treeMultitask_width_counterexample :
    ((addTreeMultitaskLogitLoss 1 mtTree zeroMat (fun _ _ => 0) 1
        initialState).logit_losses.map (fun t => t.cols)) = [7, 9] ∧
    ((specTreeMultitaskTerms 1 mtTree zeroMat (fun _ _ => 0)).map
        (fun t => t.cols)) = [5, 7] ∧
    ([7, 9] : List ℕ) ≠ [5, 7] := by
  exact ⟨rfl, rfl, by decide⟩

/-- C5 amended: `add_tree_multitask_logit_loss` processes exactly the
depth levels `d = 0` and `d = 1`; level `d` slices the logits at
`level_offsets[d]` with width `level_sizes[d+1]` (the next entry of
`level_sizes`, not the same level's entry), pairs the slice with the
per-level class-id column at offset `K + d` of the label vector
(`K = num_nodes`), applies the uniform scalar weight `1.0` with no
usage-mask, and appends each resulting loss to `logit_losses`. -/
theorem treeMultitask_amended (numSamples : ℕ) (ts : TreeStructure)
    (logits : ℕ → ℕ → ℝ) (labels : ℕ → ℕ → ℤ) (w : ℝ) (st : ModelState) :
    (addTreeMultitaskLogitLoss numSamples ts logits labels w st).logit_losses
      = st.logit_losses ++
        [{ rows := numSamples
           cols := ts.level_sizes.getD 1 0
           labels := fun i => labels i (ts.num_nodes + 0)
           logits := tfSlice2 logits 0 (ts.level_offsets.getD 0 0)
           weights := WeightSpec.scalar 1
           scope := "loss_logit_depth_0" },
         { rows := numSamples
           cols := ts.level_sizes.getD 2 0
           labels := fun i => labels i (ts.num_nodes + 1)
           logits := tfSlice2 logits 0 (ts.level_offsets.getD 1 0)
           weights := WeightSpec.scalar 1
           scope := "loss_logit_depth_1" }] ∧
    (addTreeMultitaskLogitLoss numSamples ts logits labels w
        st).walker_losses = st.walker_losses ∧
    (addTreeMultitaskLogitLoss numSamples ts logits labels w
        st).visit_losses = st.visit_losses := by
  refine ⟨?_, rfl, rfl⟩
  calc (addTreeMultitaskLogitLoss numSamples ts logits labels w
          st).logit_losses
      = (st.logit_losses ++
          [{ rows := numSamples
             cols := ts.level_sizes.getD 1 0
             labels := fun i => labels i (ts.num_nodes + 0)
             logits := tfSlice2 logits 0 (ts.level_offsets.getD 0 0)
             weights := WeightSpec.scalar 1
             scope := "loss_logit_depth_0" }]) ++
          [{ rows := numSamples
             cols := ts.level_sizes.getD 2 0
             labels := fun i => labels i (ts.num_nodes + 1)
             logits := tfSlice2 logits 0 (ts.level_offsets.getD 1 0)
             weights := WeightSpec.scalar 1
             scope := "loss_logit_depth_1" }] := rfl
    _ = _ := by rw [List.append_assoc]; rfl

lemma mem_emaApply (reg : List ℕ) (v x : ℕ) :
    x ∈ emaApply reg v ↔ x ∈ reg ∨ x = v := by
  unfold emaApply
  by_cases h : v ∈ reg
  · rw [if_pos h]
    constructor
    · exact fun hx => Or.inl hx
    · rintro (hx | rfl)
      · exact hx
      · exact h
  · rw [if_neg h]
    simp

lemma emaApply_count_ne (reg : List ℕ) (v x : ℕ) (h : x ≠ v) :
    (emaApply reg v).count x = reg.count x := by
  unfold emaApply
  split
  · rfl
  · rw [List.count_append]
    simp [h]

lemma emaApply_count_self_fresh (reg : List ℕ) (v : ℕ) (h : v ∉ reg) :
    (emaApply reg v).count v = 1 := by
  unfold emaApply
  rw [if_neg h, List.count_append, List.count_eq_zero.mpr h]
  simp

lemma emaApply_mem_self (reg : List ℕ) (v : ℕ) : v ∈ emaApply reg v := by
  rw [mem_emaApply]
  exact Or.inr rfl

lemma emaApply_of_mem (reg : List ℕ) (v : ℕ) (h : v ∈ reg) :
    emaApply reg v = reg := by
  unfold emaApply
  exact if_pos h

lemma treeSemisupStep_ema (N K : ℕ) (labelsM : ℕ → ℕ → ℤ)
    (pAba : ℕ → ℕ → ℝ) (pAbaId : ℕ) (ww : ℝ) (st : ModelState) (d : ℕ) :
    (treeSemisupStep N K labelsM pAba pAbaId ww st d).ema
      = emaApply (emaApply st.ema st.nextId) pAbaId ∧
    (treeSemisupStep N K labelsM pAba pAbaId ww st d).nextId
      = st.nextId + 1 :=
  ⟨rfl, rfl⟩

lemma treeSemisupFold_count_mem (N K : ℕ) (labelsM : ℕ → ℕ → ℤ)
    (pAba : ℕ → ℕ → ℝ) (pAbaId : ℕ) (ww : ℝ) (l : List ℕ)
    (st : ModelState) (hw : ∀ x ∈ st.ema, x < st.nextId)
    (hp : pAbaId < st.nextId) (hm : pAbaId ∈ st.ema) :
    (l.foldl (treeSemisupStep N K labelsM pAba pAbaId ww) st).ema.count
        pAbaId
      = st.ema.count pAbaId := by
  induction l generalizing st with
  | nil => rfl
  | cons d rest ih =>
    rw [List.foldl_cons]
    set st' := treeSemisupStep N K labelsM pAba pAbaId ww st d with hst
    obtain ⟨he, hn⟩ := treeSemisupStep_ema N K labelsM pAba pAbaId ww st d
    have hmem1 : pAbaId ∈ emaApply st.ema st.nextId := by
      rw [mem_emaApply]
      exact Or.inl hm
    have hema : st'.ema = emaApply st.ema st.nextId := by
      rw [he, emaApply_of_mem _ _ hmem1]
    have hcount : st'.ema.count pAbaId = st.ema.count pAbaId := by
      rw [hema, emaApply_count_ne _ _ _ hp.ne]
    have hw' : ∀ x ∈ st'.ema, x < st'.nextId := by
      intro x hx
      rw [hema, mem_emaApply] at hx
      rw [hn]
      rcases hx with hx | rfl
      · exact Nat.lt_succ_of_lt (hw x hx)
      · exact Nat.lt_succ_self _
    have hp' : pAbaId < st'.nextId := by
      rw [hn]
      exact Nat.lt_succ_of_lt hp
    have hm' : pAbaId ∈ st'.ema := by
      rw [hema]
      exact hmem1
    rw [ih st' hw' hp' hm', hcount]

lemma treeSemisupFold_count_fresh (N K : ℕ) (labelsM : ℕ → ℕ → ℤ)
    (pAba : ℕ → ℕ → ℝ) (pAbaId : ℕ) (ww : ℝ) (l : List ℕ) (hl : l ≠ [])
    (st : ModelState) (hw : ∀ x ∈ st.ema, x < st.nextId)
    (hp : pAbaId < st.nextId) (hm : pAbaId ∉ st.ema) :
    (l.foldl (treeSemisupStep N K labelsM pAba pAbaId ww) st).ema.count
        pAbaId = 1 := by
  cases l with
  | nil => exact absurd rfl hl
  | cons d rest =>
    rw [List.foldl_cons]
    set st' := treeSemisupStep N K labelsM pAba pAbaId ww st d with hst
    obtain ⟨he, hn⟩ := treeSemisupStep_ema N K labelsM pAba pAbaId ww st d
    have hm1 : pAbaId ∉ emaApply st.ema st.nextId := by
      rw [mem_emaApply]
      rintro (hx | rfl)
      · exact hm hx
      · exact absurd hp (lt_irrefl _)
    have hcount : st'.ema.count pAbaId = 1 := by
      rw [he, emaApply_count_self_fresh _ _ hm1]
    have hw' : ∀ x ∈ st'.ema, x < st'.nextId := by
      intro x hx
      rw [he, mem_emaApply, mem_emaApply] at hx
      rw [hn]
      rcases hx with (hx | rfl) | rfl
      · exact Nat.lt_succ_of_lt (hw x hx)
      · exact Nat.lt_succ_self _
      · exact Nat.lt_succ_of_lt hp
    have hp' : pAbaId < st'.nextId := by
      rw [hn]
      exact Nat.lt_succ_of_lt hp
    have hm' : pAbaId ∈ st'.ema := by
      rw [he]
      exact emaApply_mem_self _ _
    rw [treeSemisupFold_count_mem N K labelsM pAba pAbaId ww rest st'
      hw' hp' hm', hcount]

/-- C7: registering the same tensor with the moving-average tracker twice
does not create two distinct trackers — the second registration is
detected and leaves the tracker state unchanged; in particular
`add_tree_semisup_loss`, which passes the same `p_aba` tensor to
`create_walk_statistics` (and hence to `add_average`) once per depth
level, ends with that tensor registered exactly once, for any number of
levels. -/
theorem addAverage_no_duplicate_trackers :
    (∀ (st : ModelState) (v : ℕ),
        addAverage (addAverage st v) v = addAverage st v ∧
        (v ∉ st.ema → (addAverage st v).ema.count v = 1)) ∧
    (∀ (N M E maxDepth : ℕ) (ts : TreeStructure) (a b : ℕ → ℕ → ℝ)
        (labelsM : ℕ → ℕ → ℤ) (ww vw : ℝ) (st : ModelState),
        (∀ x ∈ st.ema, x < st.nextId) → 0 < min maxDepth ts.depth →
        (addTreeSemisupLoss N M E ts maxDepth a b labelsM ww vw
            st).ema.count st.nextId = 1) := by
  constructor
  · intro st v
    constructor
    · have h : emaApply (emaApply st.ema v) v = emaApply st.ema v :=
        emaApply_of_mem _ _ (emaApply_mem_self st.ema v)
      simp only [addAverage]
      rw [h]
    · intro hv
      exact emaApply_count_self_fresh st.ema v hv
  · intro N M E maxDepth ts a b labelsM ww vw st hw hpos
    show ((List.range (min maxDepth ts.depth)).foldl
        (treeSemisupStep N ts.num_nodes labelsM
          (addTreeSemisupAssoc N M E a b).2.2 st.nextId ww)
        (addVisitLoss N M (addTreeSemisupAssoc N M E a b).1 vw
          { st with nextId := st.nextId + 1 })).ema.count st.nextId = 1
    apply treeSemisupFold_count_fresh
    · intro hcon
      rw [List.range_eq_nil] at hcon
      omega
    · intro x hx
      exact Nat.lt_succ_of_lt (hw x hx)
    · exact Nat.lt_succ_self _
    · intro hmem
      exact absurd rfl (hw st.nextId hmem).ne

/-- Witness: the C7 theorem's tree clause instantiated on `dfsTree` with
`maxDepth = 99` (three processed levels) from the fresh model state. -/
theorem addAverage_no_duplicate_trackers_witness :
    (∀ x ∈ initialState.ema, x < initialState.nextId) ∧
    0 < min 99 dfsTree.depth ∧
    (addTreeSemisupLoss 1 1 1 dfsTree 99 zeroMat zeroMat (fun _ _ => 0) 1 1
        initialState).ema.count initialState.nextId = 1 :=
  ⟨fun x hx => absurd hx (List.not_mem_nil x), by decide,
    addAverage_no_duplicate_trackers.2 1 1 1 99 dfsTree zeroMat zeroMat
      (fun _ _ => 0) 1 1 initialState
      (fun x hx => absurd hx (List.not_mem_nil x)) (by decide)⟩

/-- C8 counterexample: in the train-first order the very first invocation
is rejected — `image_to_embedding(..., is_training=True)` opens the scope
with `reuse=is_training=True` while no parameters exist yet — so the two
modes cannot both reference a parameter set in that order; likewise for
`embedding_to_logit`. -/
theorem scope_reuse_counterexample :
    imageToEmbedding true []
      = Except.error "no parameters to reuse under net/model_func" ∧
    embeddingToLogit true []
      = Except.error "no parameters to reuse under net/fully_connected" :=
  ⟨rfl, rfl⟩

/-- C8 amended: invocations with `is_training=True` reuse the parameters
created by a prior `is_training=False` invocation (the order used by
`__init__`, which builds the evaluation path first): the `False` call
creates the single parameter set and the subsequent `True` call binds to
exactly that set, creating no second set; the reverse order is rejected,
because the scope is opened with `reuse=is_training` and a `True`-mode
call finds no parameters to bind to. -/
theorem scope_reuse_amended (reg : List String)
    (h1 : "net/model_func" ∉ reg) (h2 : "net/fully_connected" ∉ reg) :
    (imageToEmbedding false reg = Except.ok (reg ++ ["net/model_func"]) ∧
     imageToEmbedding true (reg ++ ["net/model_func"])
        = Except.ok (reg ++ ["net/model_func"])) ∧
    (embeddingToLogit false reg
        = Except.ok (reg ++ ["net/fully_connected"]) ∧
     embeddingToLogit true (reg ++ ["net/fully_connected"])
        = Except.ok (reg ++ ["net/fully_connected"])) ∧
    (∀ r : List String, "net/model_func" ∉ r →
      imageToEmbedding true r
        = Except.error ("no parameters to reuse under " ++ "net/model_func")) := by
  refine ⟨⟨?_, ?_⟩, ⟨?_, ?_⟩, ?_⟩
  · simp [imageToEmbedding, scopeGetOrCreate, h1]
  · simp [imageToEmbedding, scopeGetOrCreate]
  · simp [embeddingToLogit, scopeGetOrCreate, h2]
  · simp [embeddingToLogit, scopeGetOrCreate]
  · intro r hr
    simp [imageToEmbedding, scopeGetOrCreate, hr]

/-- Witness: the C8 amended theorem instantiated at the empty registry:
the evaluation-mode call creates the parameter set and the training-mode
call reuses it. -/
theorem scope_reuse_amended_witness :
    ("net/model_func" ∉ ([] : List String)) ∧
    imageToEmbedding false [] = Except.ok ["net/model_func"] ∧
    imageToEmbedding true ["net/model_func"] = Except.ok ["net/model_func"] := by
  have h := (scope_reuse_amended [] (by simp) (by simp)).1
  exact ⟨by simp, by simpa using h.1, by simpa using h.2⟩

lemma calcEmbeddingChunks_join_length {α β : Type}
    (endpoint : List α → List β)
    (h : ∀ chunk : List α, (endpoint chunk).length = chunk.length)
    (images : List α) :
    ((calcEmbeddingChunks endpoint images).flatten).length
      = images.length := by
  suffices H : ∀ (n : ℕ) (l : List α), l.length ≤ n →
      ((calcEmbeddingChunks endpoint l).flatten).length = l.length from
    H images.length images le_rfl
  intro n
  induction n with
  | zero =>
    intro l hl
    have : l = [] := List.eq_nil_of_length_eq_zero (Nat.le_zero.mp hl)
    subst this
    simp [calcEmbeddingChunks]
  | succ n ih =>
    intro l hl
    cases l with
    | nil => simp [calcEmbeddingChunks]
    | cons x xs =>
      simp only [List.length_cons] at hl
      simp only [calcEmbeddingChunks, List.flatten_cons, List.length_append, h]
      rw [ih ((x :: xs).drop 100) (by
        rw [List.length_drop]
        simp only [List.length_cons]
        omega)]
      rw [List.length_take, List.length_drop]
      simp only [List.length_cons]
      omega

/-- C9 counterexample: at the empty images array the chunk loop runs zero
times and `np.concatenate(emb)` is handed zero arrays, so `calc_embedding`
(and hence `classify`) fails with an error instead of returning the
sample-count-0 output the any-input-size claim requires. -/
theorem calcEmbedding_empty_counterexample :
    calcEmbedding (fun c : List ℕ => c) [] = none ∧
    classify (fun c : List ℕ => c) [] = none := by
  constructor
  · simp [calcEmbedding, calcEmbeddingChunks, npConcatenate]
  · simp [classify, calcEmbedding, calcEmbeddingChunks, npConcatenate]

/-- C9 amended: for every endpoint returning one output row per input
sample and every nonempty images array, `calc_embedding` splits the images
into consecutive chunks of `test_batch_size = 100`, evaluates the endpoint
per chunk and concatenates the results along the sample axis, so the
output sample count equals `len(images)` for any nonempty input size
(including the boundary counts 1, 100, 101, 250); at the empty input the
zero-chunk `np.concatenate` raises instead of returning an empty result;
`classify` is exactly this procedure applied to the logit endpoint. -/
theorem calcEmbedding_length {α β : Type} (endpoint : List α → List β)
    (h : ∀ chunk : List α, (endpoint chunk).length = chunk.length)
    (images : List α) (hne : images ≠ []) :
    (∃ out : List β, calcEmbedding endpoint images = some out ∧
      out.length = images.length) ∧
    classify endpoint images = calcEmbedding endpoint images := by
  refine ⟨?_, rfl⟩
  cases images with
  | nil => exact absurd rfl hne
  | cons x xs =>
    refine ⟨(calcEmbeddingChunks endpoint (x :: xs)).flatten, ?_,
      calcEmbeddingChunks_join_length endpoint h (x :: xs)⟩
    have hchunks : calcEmbeddingChunks endpoint (x :: xs)
        = endpoint ((x :: xs).take 100) ::
            calcEmbeddingChunks endpoint ((x :: xs).drop 100) := by
      simp [calcEmbeddingChunks]
    unfold calcEmbedding
    rw [hchunks]
    rfl

/-- Witness: the C9 amended theorem instantiated with the identity
endpoint on a 250-sample input (three chunks: 100, 100, 50). -/
theorem calcEmbedding_length_witness :
    (List.replicate 250 (0 : ℕ)) ≠ [] ∧
    ∃ out : List ℕ,
      calcEmbedding (fun c : List ℕ => c) (List.replicate 250 0) = some out ∧
      out.length = 250 := by
  have hne : (List.replicate 250 (0 : ℕ)) ≠ [] := by
    intro hcon
    have hlen := congrArg List.length hcon
    rw [List.length_replicate, List.length_nil] at hlen
    exact absurd hlen (by decide)
  obtain ⟨out, h1, h2⟩ := (calcEmbedding_length (fun c : List ℕ => c)
    (fun _ => rfl) (List.replicate 250 0) hne).1
  exact ⟨hne, out, h1, h2.trans (by rw [List.length_replicate])⟩

lemma naturalChoice_spec : ChoiceSpec naturalChoice := by
  intro n k
  refine ⟨?_, ?_, ?_⟩
  · intro h1 h2
    refine ⟨List.range k.toNat, ?_, List.length_range _,
      List.nodup_range _, ?_⟩
    · simp [naturalChoice, h1, h2]
    · intro j hj
      rw [List.mem_range] at hj
      omega
  · intro hlt
    have hcond : ¬(0 ≤ k ∧ k ≤ (n : ℤ)) := by omega
    simp [naturalChoice, hcond]
  · intro hlt
    have hcond : ¬(0 ≤ k ∧ k ≤ (n : ℤ)) := by omega
    simp [naturalChoice, hcond]

lemma sampleByLabelGo_neg1 {α : Type} [Inhabited α]
    (choice : ℕ → ℤ → Option (List ℕ)) (images : List α)
    (labels : List ℤ) (l : List ℕ) :
    sampleByLabelGo choice images labels (-1) l
      = some (l.map (fun i => classList images labels (i : ℤ))) := by
  induction l with
  | nil => rfl
  | cons i rest ih => simp [sampleByLabelGo, ih]

lemma sampleByLabelGo_pos {α : Type} [Inhabited α]
    (choice : ℕ → ℤ → Option (List ℕ)) (hch : ChoiceSpec choice)
    (images : List α) (labels : List ℤ) (n : ℤ) (hn : 0 ≤ n) (l : List ℕ)
    (hall : ∀ i ∈ l, n ≤ ((classList images labels (i : ℤ)).length : ℤ)) :
    ∃ gs, sampleByLabelGo choice images labels n l = some gs ∧
      List.Forall₂ (fun (i : ℕ) (g : List α) =>
        ∃ idxs : List ℕ, idxs.Nodup ∧ idxs.length = n.toNat ∧
          (∀ j ∈ idxs, j < (classList images labels (i : ℤ)).length) ∧
          g = idxs.map
            (fun j => (classList images labels (i : ℤ)).getD j default))
        l gs := by
  induction l with
  | nil => exact ⟨[], rfl, List.Forall₂.nil⟩
  | cons i rest ih =>
    have hi := hall i (List.mem_cons_self _ _)
    obtain ⟨idxs, hc, hlen, hnd, hbound⟩ :=
      (hch (classList images labels (i : ℤ)).length n).1 hn hi
    obtain ⟨gs, hgs, hfa⟩ := ih (fun j hj => hall j (List.mem_cons_of_mem _ hj))
    have hne : ¬(n = -1) := by omega
    refine ⟨(idxs.map
        (fun j => (classList images labels (i : ℤ)).getD j default)) :: gs,
      ?_, List.Forall₂.cons ⟨idxs, hnd, hlen, hbound, rfl⟩ hfa⟩
    simp [sampleByLabelGo, hne, hc, hgs]

lemma sampleByLabelGo_fail {α : Type} [Inhabited α]
    (choice : ℕ → ℤ → Option (List ℕ)) (hch : ChoiceSpec choice)
    (images : List α) (labels : List ℤ) (n : ℤ) (hn : 0 ≤ n) (l : List ℕ)
    (hex : ∃ i ∈ l, ((classList images labels (i : ℤ)).length : ℤ) < n) :
    sampleByLabelGo choice images labels n l = none := by
  induction l with
  | nil =>
    obtain ⟨i, hi, _⟩ := hex
    exact absurd hi (List.not_mem_nil i)
  | cons i rest ih =>
    have hne : ¬(n = -1) := by omega
    by_cases hfail : ((classList images labels (i : ℤ)).length : ℤ) < n
    · have hc := (hch (classList images labels (i : ℤ)).length n).2.1 hfail
      simp [sampleByLabelGo, hne, hc]
    · obtain ⟨idxs, hc, _, _, _⟩ :=
        (hch (classList images labels (i : ℤ)).length n).1 hn
          (le_of_not_lt hfail)
      have hrest : ∃ j ∈ rest,
          ((classList images labels (j : ℤ)).length : ℤ) < n := by
        obtain ⟨j, hj, hjlt⟩ := hex
        rcases List.mem_cons.mp hj with rfl | hj2
        · exact absurd hjlt hfail
        · exact ⟨j, hj2, hjlt⟩
      simp [sampleByLabelGo, hne, hc, ih hrest]

/-- C10: for every draw generator obeying the numpy contract: with
`n_per_label = -1`, `sample_by_label` returns one group per class holding
all samples of that class; with `n_per_label ≥ 0` and every class holding
at least `n_per_label` samples, it returns exactly `num_labels` groups,
group `i` holding exactly `n_per_label` samples of class `i` drawn at
pairwise-distinct indices (without replacement); and when some class holds
fewer than `n_per_label` samples the call fails rather than return a short
group. -/
theorem sampleByLabel_spec {α : Type} [Inhabited α]
    (choice : ℕ → ℤ → Option (List ℕ)) (hch : ChoiceSpec choice)
    (images : List α) (labels : List ℤ) (n_per_label : ℤ)
    (num_labels : ℕ) :
    (n_per_label = -1 →
      sampleByLabel choice images labels n_per_label num_labels
        = some ((List.range num_labels).map
            (fun i => classList images labels (i : ℤ)))) ∧
    (0 ≤ n_per_label →
      (∀ i : ℕ, i < num_labels →
        n_per_label ≤ ((classList images labels (i : ℤ)).length : ℤ)) →
      ∃ gs, sampleByLabel choice images labels n_per_label num_labels
          = some gs ∧ gs.length = num_labels ∧
        List.Forall₂ (fun (i : ℕ) (g : List α) =>
          ∃ idxs : List ℕ, idxs.Nodup ∧ idxs.length = n_per_label.toNat ∧
            (∀ j ∈ idxs, j < (classList images labels (i : ℤ)).length) ∧
            g = idxs.map
              (fun j => (classList images labels (i : ℤ)).getD j default))
          (List.range num_labels) gs) ∧
    (0 ≤ n_per_label →
      (∃ i : ℕ, i < num_labels ∧
        ((classList images labels (i : ℤ)).length : ℤ) < n_per_label) →
      sampleByLabel choice images labels n_per_label num_labels = none) := by
  refine ⟨?_, ?_, ?_⟩
  · rintro rfl
    exact sampleByLabelGo_neg1 choice images labels (List.range num_labels)
  · intro hn hall
    obtain ⟨gs, h1, h2⟩ := sampleByLabelGo_pos choice hch images labels
      n_per_label hn (List.range num_labels)
      (fun i hi => hall i (List.mem_range.mp hi))
    refine ⟨gs, h1, ?_, h2⟩
    rw [← h2.length_eq, List.length_range]
  · rintro hn ⟨i, hi, hlt⟩
    exact sampleByLabelGo_fail choice hch images labels n_per_label hn
      (List.range num_labels) ⟨i, List.mem_range.mpr hi, hlt⟩

/-- Witness: the C10 theorem instantiated with the deterministic draw,
two images of two classes and `n_per_label = 1`. -/
theorem sampleByLabel_spec_witness :
    ∃ gs, sampleByLabel naturalChoice [10, 20] [0, 1] 1 2 = some gs ∧
      gs.length = 2 ∧
      List.Forall₂ (fun (i : ℕ) (g : List ℕ) =>
        ∃ idxs : List ℕ, idxs.Nodup ∧ idxs.length = (1 : ℤ).toNat ∧
          (∀ j ∈ idxs, j < (classList [10, 20] [0, 1] (i : ℤ)).length) ∧
          g = idxs.map
            (fun j => (classList [10, 20] [0, 1] (i : ℤ)).getD j default))
        (List.range 2) gs :=
  (sampleByLabel_spec naturalChoice naturalChoice_spec [10, 20] [0, 1] 1
      2).2.1 (by decide)
    (by
      intro i hi
      interval_cases i <;> decide)

end Semisup
